import Mathlib

/-!
A verification development for the relialimo_orchestra repository
(src/relialimo_orchestra).  The Python source is shallowly embedded:
strings are modelled as List Char, machine integers as Int, dictionaries
as insertion-ordered association lists, and fallible code as Except.
Each definition is translated from the named source function.
-/

namespace Relialimo

/-- Python substring test (the in operator on str): true iff the needle
occurs contiguously in the haystack; the empty needle always occurs. -/
def containsSub (n : List Char) : List Char → Bool
  | [] => n.isEmpty
  | c :: t => n.isPrefixOf (c :: t) || containsSub n t

/-- Characters stripped by Python str.strip(): the ASCII whitespace
characters (space, tab, newline, carriage return, vertical tab, form
feed).  Non-ASCII Unicode whitespace is not modelled. -/
def pyIsSpace (c : Char) : Bool :=
  c = ' ' || c = '\t' || c = '\n' || c = '\x0d' || c = Char.ofNat 11 || c = Char.ofNat 12

/-- Python str.strip(): drop leading and trailing whitespace. -/
def pyStrip (s : List Char) : List Char :=
  ((s.dropWhile pyIsSpace).reverse.dropWhile pyIsSpace).reverse

/-- Helper for pySplitlines: cur is the current line, reversed. -/
def pySplitlinesGo : List Char → List Char → List (List Char)
  | cur, [] => if cur.isEmpty then [] else [cur.reverse]
  | cur, '\x0d' :: '\n' :: r => cur.reverse :: pySplitlinesGo [] r
  | cur, '\x0d' :: r => cur.reverse :: pySplitlinesGo [] r
  | cur, '\n' :: r => cur.reverse :: pySplitlinesGo [] r
  | cur, c :: r => pySplitlinesGo (c :: cur) r

/-- Python str.splitlines(): split on the line terminators \n, \r and
\r\n, with no trailing empty line when the final line is terminated.
The exotic Unicode terminators Python also recognises are not modelled. -/
def pySplitlines (s : List Char) : List (List Char) := pySplitlinesGo [] s

/-- Python str.startswith for our List Char strings. -/
def startsWith (pre s : List Char) : Bool := pre.isPrefixOf s

/-- From tools_repo.py, _patch_is_safe, the bad_markers list: substrings
whose presence anywhere in the patch text rejects it.  Note that the
first two require a preceding newline, so they do not match a header on
the very first line of the patch. -/
def bad_markers : List (List Char) :=
  [('\n' :: ("+++ /").toList), ('\n' :: ("--- /").toList), ("diff --git /").toList]

/-- From tools_repo.py lines 124-135, _patch_is_safe.  Only the accepted
boolean of the (accepted, reason) pair is modelled; the reason strings do
not affect any control flow of interest.  The first loop returns False as
soon as a bad marker is a substring of the whole text; the second loop
returns False as soon as a line starting with one of the three header
prefixes contains a parent-traversal token. -/
def patch_is_safe (patch_text : List Char) : Bool :=
  if bad_markers.any (fun m => containsSub m patch_text) then false
  else if (pySplitlines patch_text).any (fun line =>
      (startsWith ("+++ ").toList line || startsWith ("--- ").toList line ||
       startsWith ("diff --git ").toList line) &&
      (containsSub ("../").toList line || containsSub ("..\\").toList line)) then false
  else true

/-- A single quote character, used when rendering Python repr text. -/
def quoteChar : Char := Char.ofNat 39

/-- Exceptions that subprocess.run can raise in this code base: the
timeout (subprocess.TimeoutExpired, whose str is of the form
Command cmd timed out after N seconds, with cmdRepr holding the quoted
command text), a launch failure such as FileNotFoundError, and any other
exception.  Message text is carried explicitly. -/
inductive PyExn
  | timeoutExpired (cmdRepr : List Char) (seconds : Nat)
  | oserror (msg : List Char)
  | otherExn (msg : List Char)
deriving DecidableEq

/-- The str() rendering of a PyExn, as interpolated by an f-string. -/
def pyExnStr : PyExn → List Char
  | .timeoutExpired c s =>
      ("Command ").toList ++ c ++ (" timed out after ").toList ++
        Nat.toDigits 10 s ++ (" seconds").toList
  | .oserror m => m
  | .otherExn m => m

/-- Python repr of a list of strings, as interpolated for argv in the
error message of orchestrator _run.  Strings are assumed to need no
escaping beyond surrounding single quotes. -/
def pyArgvRepr (argv : List (List Char)) : List Char :=
  ('[' :: List.intercalate (", ").toList (argv.map (fun s => quoteChar :: (s ++ [quoteChar])))) ++ [']']

/-- Outcome of one subprocess.run call: either the child process ran to
completion with a return code and captured stdout/stderr text, or the
call raised an exception (launch failure, timeout, ...). -/
inductive SpawnOutcome
  | completed (returncode : Int) (stdout : List Char) (stderr : List Char)
  | raised (e : PyExn)
deriving DecidableEq

/-- Shared output assembly of both _run functions: stdout if non-empty,
then a newline and stderr if non-empty, stripped (orchestrator.py lines
71-78 and tools_repo.py lines 214-219). -/
def combinedOut (stdout stderr : List Char) : List Char :=
  pyStrip ((if stdout.isEmpty then [] else stdout) ++
           (if stderr.isEmpty then [] else '\n' :: stderr))

/-- From orchestrator.py lines 56-78, _run.  The whole subprocess.run
call sits in a try/except, so a raised exception becomes the pair
(1, ERROR text); a completed process yields its return code and the
combined, stripped output.  The outcome of the spawn is passed in as
data, since it is decided by the operating system. -/
def orchestrator_run (argv : List (List Char)) (outcome : SpawnOutcome) : Int × List Char :=
  match outcome with
  | .raised e =>
      (1, ("ERROR running command ").toList ++ pyArgvRepr argv ++ (": ").toList ++ pyExnStr e)
  | .completed rc so se => (rc, combinedOut so se)

/-- From tools_repo.py lines 206-219, _run.  This copy has no
try/except: an exception raised by subprocess.run (launch failure,
timeout) propagates to the caller, modelled as Except.error. -/
def tools_repo_run (outcome : SpawnOutcome) : Except PyExn (Int × List Char) :=
  match outcome with
  | .raised e => .error e
  | .completed rc so se => .ok (rc, combinedOut so se)

/-- Task names from config.py TaskName. -/
inductive TaskName
  | install | format | lint | typecheck | test | build
deriving DecidableEq

/-- The string form of a TaskName, as used for dictionary keys and in
f-string interpolation. -/
def taskNameStr : TaskName → List Char
  | .install => ("install").toList
  | .format => ("format").toList
  | .lint => ("lint").toList
  | .typecheck => ("typecheck").toList
  | .test => ("test").toList
  | .build => ("build").toList

/-- From config.py TaskSpec: an argv list plus a working directory. -/
structure TaskSpec where
  argv : List (List Char)
  cwd : List Char
deriving DecidableEq

/-- From orchestrator.py line 26: the fixed verification order scanned
by _run_tasks (install is not part of it). -/
def TASK_ORDER : List TaskName := [.format, .lint, .typecheck, .test, .build]

/-- One entry of the status dictionary built by _run_tasks: either the
skipped marker or the recorded run of a configured task. -/
inductive TaskOutcome
  | skippedTask
  | ran (ok : Bool) (returncode : Int) (cmd : List Char) (output_tail : List Char)
deriving DecidableEq

/-- Python s[-n:]: the last n characters (the whole string when shorter). -/
def takeRight (n : Nat) (l : List Char) : List Char := l.drop (l.length - n)

/-- The space-joined command text, as in " ".join(spec.argv). -/
def joinSpaces (argv : List (List Char)) : List Char :=
  List.intercalate (" ").toList argv

/-- The status entry _run_tasks records for one executed task, given the
(code, out) pair returned by the executor. -/
def ranEntry (spec : TaskSpec) (r : Int × List Char) : TaskOutcome :=
  .ran (r.1 == 0) r.1 (joinSpaces spec.argv) (takeRight 4000 r.2)

/-- Loop body of _run_tasks over a remaining order list, threading the
executor ex (the effect of _run on a spec, supplied as data) and the
configured task mapping.  Mirrors orchestrator.py lines 120-138: an
unconfigured task records the skipped marker and iteration continues; a
configured task is executed and recorded; on the first non-zero exit the
loop breaks, so later tasks get no entry and are never executed. -/
def run_tasks_go (ex : TaskSpec → Int × List Char) (cfg : TaskName → Option TaskSpec) :
    List TaskName → List (TaskName × TaskOutcome)
  | [] => []
  | t :: rest =>
    match cfg t with
    | none => (t, .skippedTask) :: run_tasks_go ex cfg rest
    | some spec =>
      let r := ex spec
      if r.1 == 0 then (t, ranEntry spec r) :: run_tasks_go ex cfg rest
      else [(t, ranEntry spec r)]

/-- From orchestrator.py lines 120-138, _run_tasks: the full loop over
TASK_ORDER.  The returned association list is the insertion-ordered
status dictionary. -/
def run_tasks (ex : TaskSpec → Int × List Char) (cfg : TaskName → Option TaskSpec) :
    List (TaskName × TaskOutcome) :=
  run_tasks_go ex cfg TASK_ORDER

/-- Classification of a failed actor invocation, matching the except
clauses of _run_agent_with_backoff: openai.RateLimitError; an
openai.APIError carrying getattr(e, "status_code", None); and any other
exception (which no except clause matches). -/
inductive FailureKind
  | rateLimit
  | apiError (statusCode : Option Int)
  | otherFailure
deriving DecidableEq

/-- Result of one attempt of the underlying Runner.run invocation. -/
inductive CallResult (α : Type)
  | success (a : α)
  | failure (f : FailureKind)

/-- Whether a failure is caught and retried by _run_agent_with_backoff
(orchestrator.py lines 246-269): RateLimitError always; APIError unless
it carries a numeric status code below 500 (so a missing status code is
retried); anything else propagates. -/
def retryable : FailureKind → Bool
  | .rateLimit => true
  | .apiError none => true
  | .apiError (some s) => decide (500 ≤ s)
  | .otherFailure => false

/-- One backoff sleep duration (orchestrator.py lines 257 and 266):
min(20.0, delay) * (1.0 + random.random() * 0.25), where r models the
random.random() sample in the half-open unit interval.  Real-number
semantics are used for the float arithmetic. -/
def sleepFor (delay r : ℚ) : ℚ := min 20 delay * (1 + r * (1 / 4))

/-- How a _run_agent_with_backoff call ends: with the Runner.run value,
by re-raising a non-retryable failure, or with the terminal
RuntimeError after the attempt loop is exhausted. -/
inductive WrapError
  | propagated (f : FailureKind)
  | runtimeError (msg : List Char)
deriving DecidableEq

/-- Outcome marker for the attempt loop, before the terminal
RuntimeError message is attached. -/
inductive GoOutcome (α : Type)
  | ok (a : α)
  | raised (f : FailureKind)
  | exhausted

/-- The attempt loop of _run_agent_with_backoff (orchestrator.py lines
245-269).  invoke gives the result of the Runner.run call on each
attempt number, jitter the random.random() sample drawn on that attempt,
remaining the number of attempts left, delay the current base delay.
Returns the outcome and the list of sleep durations in order. -/
def backoffGo (invoke : Nat → CallResult α) (jitter : Nat → ℚ) :
    Nat → Nat → ℚ → GoOutcome α × List ℚ
  | 0, _, _ => (.exhausted, [])
  | remaining + 1, attempt, delay =>
    match invoke attempt with
    | .success a => (.ok a, [])
    | .failure f =>
      if retryable f then
        let s := sleepFor delay (jitter attempt)
        let rest := backoffGo invoke jitter remaining (attempt + 1) (2 * delay)
        (rest.1, s :: rest.2)
      else (.raised f, [])

/-- The terminal RuntimeError message of orchestrator.py line 272. -/
def exhaustedMsg (label : List Char) (maxAttempts : Nat) : List Char :=
  label ++ (": exceeded retries after ").toList ++ Nat.toDigits 10 maxAttempts ++
    (" attempts").toList

/-- From orchestrator.py lines 234-272, _run_agent_with_backoff: run the
attempt loop starting at attempt 1 with delay 0.5, and on exhaustion
raise the RuntimeError naming the label and the attempt count.  Returns
the outcome together with the sleeps performed. -/
def run_agent_with_backoff (label : List Char) (invoke : Nat → CallResult α)
    (jitter : Nat → ℚ) (maxAttempts : Nat) : Except WrapError α × List ℚ :=
  match backoffGo invoke jitter maxAttempts 1 (1 / 2) with
  | (.ok a, s) => (.ok a, s)
  | (.raised f, s) => (.error (.propagated f), s)
  | (.exhausted, s) => (.error (.runtimeError (exhaustedMsg label maxAttempts)), s)

/-- The seven actor-invocation sites of run_orchestra, iteration-indexed
for the loop stages. -/
inductive Stage
  | mapStage | planStage
  | implementStage (i : Nat) | debugStage (i : Nat) | fixStage (i : Nat)
  | reviewStage | judgeStage

/-- A direct Runner.run call, as run_orchestra performs at every stage
(orchestrator.py lines 180, 195, 223, 296, 308, 319, 334): one attempt,
a failure propagates. -/
def directCall : CallResult α → Except FailureKind α
  | .success a => .ok a
  | .failure f => .error f

/-- The failure scan of orchestrator.py lines 277-284: walk TASK_ORDER,
skip entries marked skipped and tasks with no entry (an absent task
defaults ok to True), and stop at the first entry with ok false,
producing the captured last_failure_output text t: cmd newline tail. -/
def firstFailingGo (status : List (TaskName × TaskOutcome)) :
    List TaskName → Option (TaskName × List Char)
  | [] => none
  | t :: rest =>
    match List.lookup t status with
    | none => firstFailingGo status rest
    | some .skippedTask => firstFailingGo status rest
    | some (.ran ok _ cmd tail) =>
      if ok then firstFailingGo status rest
      else some (t, taskNameStr t ++ (": ").toList ++ cmd ++ ('\n' :: tail))

/-- The full failure scan over TASK_ORDER. -/
def firstFailing (status : List (TaskName × TaskOutcome)) : Option (TaskName × List Char) :=
  firstFailingGo status TASK_ORDER

/-- The structured run result of orchestrator.py lines 39-46,
OrchestraRunResult, with the opaque actor outputs at type α. -/
structure OrchestraRunResult (α : Type) where
  repo_map : α
  plan : α
  final_status : List (TaskName × TaskOutcome)
  review : α
  judge : α
  diff : List Char

/-- The implement/verify/diagnose loop of run_orchestra (orchestrator.py
lines 206-232 and 274-314, reassembled as the indentation of the source
dictates, with the _run_agent_with_backoff definition that was pasted
into the middle of the function at lines 234-272 lifted out).  remaining
counts the iterations left, i is the 1-based iteration number, status
the mapping from the previous iteration.  Each stage is a direct
Runner.run call whose failure propagates; prompt construction and git
reads are elided because they affect no control flow. -/
def orchestraLoopGo (invoke : Stage → CallResult α)
    (execAt : Nat → TaskSpec → Int × List Char) (cfg : TaskName → Option TaskSpec) :
    Nat → Nat → List (TaskName × TaskOutcome) →
      Except FailureKind (List (TaskName × TaskOutcome))
  | 0, _, status => .ok status
  | remaining + 1, i, _ => do
    let _ ← directCall (invoke (.implementStage i))
    let status := run_tasks (execAt i) cfg
    match firstFailing status with
    | none => .ok status
    | some _ => do
      let _ ← directCall (invoke (.debugStage i))
      let _ ← directCall (invoke (.fixStage i))
      orchestraLoopGo invoke execAt cfg remaining (i + 1) status

/-- From orchestrator.py lines 141-354, run_orchestra, reassembled as
described at orchestraLoopGo (the source file itself fails to parse:
lines 274 onward are indented under the raise of the pasted-in wrapper).
Map and plan run once, then the implement loop, then review and judge on
the computed diff text (supplied as data since it reads the worktree),
then the result is assembled.  Every actor invocation is a directCall:
none is routed through run_agent_with_backoff.  The optional branch and
commit steps, off by default, are elided. -/
def run_orchestra_model (invoke : Stage → CallResult α)
    (execAt : Nat → TaskSpec → Int × List Char) (cfg : TaskName → Option TaskSpec)
    (diffText : List Char) (maxIterations : Nat) :
    Except FailureKind (OrchestraRunResult α) := do
  let m ← directCall (invoke .mapStage)
  let p ← directCall (invoke .planStage)
  let status ← orchestraLoopGo invoke execAt cfg maxIterations 1 []
  let rv ← directCall (invoke .reviewStage)
  let j ← directCall (invoke .judgeStage)
  .ok ⟨m, p, status, rv, j, diffText⟩

/-- One step of lexical path resolution: empty and dot components vanish,
a dotdot pops the last component (a no-op at the root), a normal
component is appended.  An absolute path is its component list from the
root; symlinks are not modelled, so Path.resolve() is lexical here. -/
def resolveStep (acc : List (List Char)) (comp : List Char) : List (List Char) :=
  if comp = [] ∨ comp = ('.' :: []) then acc
  else if comp = ('.' :: '.' :: []) then acc.dropLast
  else acc ++ [comp]

/-- Lexical model of (Path slash-joined from components).resolve(). -/
def resolveComps (comps : List (List Char)) : List (List Char) :=
  comps.foldl resolveStep []

/-- pathlib parents of an absolute path given by its component list: the
proper ancestors down to the root (the root itself has no parents).
pathlib yields them nearest-first; this model lists them shortest-first,
which is irrelevant to the membership test abs_path performs. -/
def pathParents : List (List Char) → List (List (List Char))
  | [] => []
  | x :: xs => [] :: (pathParents xs).map (fun p => x :: p)

/-- From context.py lines 20-26, RepoContext.abs_path.  root is the
resolved repository root as a component list, p the relative path as a
component list.  candidate = (repo_dir / rel_path).resolve(); the guard
raises ValueError when repo_root is not among candidate.parents and
candidate differs from repo_root; otherwise the resolved candidate is
returned.  The function performs no file I/O, mirroring that the source
guard precedes any read or write. -/
def abs_path (root p : List (List Char)) : Except (List Char) (List (List Char)) :=
  let candidate := resolveComps (root ++ p)
  if ¬ (root ∈ pathParents candidate) ∧ candidate ≠ root then
    .error (("Path escapes repo: ").toList ++ List.intercalate ("/").toList p)
  else
    .ok candidate

/-- From tools_repo.py line 275 and orchestrator.py line 100: the
substrings whose presence invalidates a branch name.  Note the
whitespace entry is the single space character only. -/
def branch_bad_substrings : List (List Char) :=
  [("..").toList, ("~").toList, ("^").toList, (":").toList, (" ").toList, ("\\").toList]

/-- The branch-name guard shared by git_create_branch (tools_repo.py
lines 267-281) and _git_create_branch (orchestrator.py lines 99-105):
any(x in name for x in [..]). -/
def branch_name_invalid (name : List Char) : Bool :=
  branch_bad_substrings.any (fun x => containsSub x name)

/-- What a git_create_branch call does: either the name is rejected
before any git command runs, or git checkout -b is invoked and its
(code, out) pair produces the reply text. -/
inductive GitBranchResult
  | rejected (msg : List Char)
  | gitRun (code : Int) (out : List Char) (reply : List Char)
deriving DecidableEq

/-- From tools_repo.py lines 267-281, git_create_branch (identical guard
and replies in orchestrator.py _git_create_branch; the context-state
update of the tools variant is elided).  git supplies the (code, out)
result of the checkout, used only when the guard passes. -/
def git_create_branch (name : List Char) (git : Int × List Char) : GitBranchResult :=
  if branch_name_invalid name then .rejected ("ERROR: invalid branch name").toList
  else
    .gitRun git.1 git.2
      (if git.1 ≠ 0 then ("ERROR: git checkout -b failed").toList ++ ('\n' :: git.2)
       else ("OK: on branch ").toList ++ name)

/-- Parsed JSON values as produced by json.loads.  Numbers are modelled
as integers; objects keep their textual field order, with duplicate keys
resolved by pyDictOf as Python dict construction does. -/
inductive JValue
  | jnull
  | jbool (b : Bool)
  | jnum (n : Int)
  | jstr (s : List Char)
  | jarr (xs : List JValue)
  | jobj (fields : List (List Char × JValue))

/-- Python dict insertion: an existing key keeps its position and takes
the new value, a new key is appended. -/
def pyDictInsert (d : List (List Char × JValue)) (k : List Char) (v : JValue) :
    List (List Char × JValue) :=
  if d.any (fun p => p.1 = k) then d.map (fun p => if p.1 = k then (k, v) else p)
  else d ++ [(k, v)]

/-- Python dict built from a field list (duplicate keys: last value,
first position). -/
def pyDictOf (fields : List (List Char × JValue)) : List (List Char × JValue) :=
  fields.foldl (fun d p => pyDictInsert d p.1 p.2) []

/-- Lookup in an association list keyed by strings. -/
def strLookup (d : List (List Char × JValue)) (k : List Char) : Option JValue :=
  (d.find? (fun p => p.1 = k)).map Prod.snd

/-- The closed key set accepted by OrchestraConfig.load (config.py line
33). -/
def taskNameStrings : List (List Char) :=
  [("install").toList, ("format").toList, ("lint").toList,
   ("typecheck").toList, ("test").toList, ("build").toList]

/-- Python isinstance(v, list) and all(isinstance(x, str) for x in v):
the argv strings when v is a list of strings, none otherwise. -/
def asStrListArr : JValue → Option (List (List Char))
  | .jarr xs =>
    xs.foldr (fun x acc =>
      match x, acc with
      | .jstr s, some r => some (s :: r)
      | _, _ => none) (some [])
  | _ => none

/-- The exceptions OrchestraConfig.load can raise in the model: calling
.items() on a non-dict tasks value (AttributeError). -/
inductive PyLoadError
  | attributeError
deriving DecidableEq

/-- The task mapping assembled by OrchestraConfig.load, keyed by the
task-name string. -/
structure ConfigModel where
  tasks : List (List Char × TaskSpec)
deriving DecidableEq

/-- The body of the loop of config.py lines 32-37 for one (k, v) item:
skip keys outside the closed set, skip values that are not lists of
strings, otherwise record TaskSpec(argv=list(v)) (cwd defaults to "."). -/
def loadStep (acc : List (List Char × TaskSpec)) (item : List Char × JValue) :
    List (List Char × TaskSpec) :=
  if item.1 ∈ taskNameStrings then
    match asStrListArr item.2 with
    | some argv => acc ++ [(item.1, ⟨argv, ('.' :: [])⟩)]
    | none => acc
  else acc

/-- From config.py lines 27-38, OrchestraConfig.load, applied to the
already-parsed JSON value (the file read and json.loads text handling
are elided).  data.get("tasks", {}) defaults a missing member to an
empty dict; iterating .items() of a non-dict value raises
AttributeError; otherwise the loop filters and collects the task specs.
The keys iterated are unique after pyDictOf, so the dict assignment
tasks[k] = .. is a plain append. -/
def OrchestraConfig_load (data : JValue) : Except PyLoadError ConfigModel :=
  match data with
  | .jobj fields =>
    let d := pyDictOf fields
    let rawTasks := (strLookup d ("tasks").toList).getD (.jobj [])
    match rawTasks with
    | .jobj tf => .ok ⟨(pyDictOf tf).foldl loadStep []⟩
    | _ => .error .attributeError
  | _ => .error .attributeError

/-- Whether a status entry records a failed (executed, non-ok) task. -/
def entryFailed : TaskOutcome → Bool
  | .ran ok _ _ _ => !ok
  | .skippedTask => false

/-- Concrete executor for examples: every command exits 1 printing boom. -/
def exC4 : TaskSpec → Int × List Char := fun _ => (1, ("boom").toList)

/-- Concrete configuration for examples: format and lint configured,
everything else absent. -/
def cfgC4 : TaskName → Option TaskSpec
  | .format => some ⟨[("fmt").toList], (".").toList⟩
  | .lint => some ⟨[("lintcmd").toList], (".").toList⟩
  | _ => none

/-- Concrete per-attempt actor: rate-limited on attempt 1, a 503 on
attempt 2, success on attempt 3. -/
def invC5 : Nat → CallResult Nat
  | 1 => .failure .rateLimit
  | 2 => .failure (.apiError (some 503))
  | _ => .success 42

/-- Concrete jitter stream: random.random() always returns one half. -/
def jitterHalf : Nat → ℚ := fun _ => 1 / 2

/-- Concrete jitter stream: random.random() always returns zero. -/
def jitterZero : Nat → ℚ := fun _ => 0

/-- Concrete per-attempt actor: always an APIError with no status code. -/
def invApiNone : Nat → CallResult Nat := fun _ => .failure (.apiError none)

/-- Concrete per-attempt actor: always a non-retryable failure. -/
def invOther : Nat → CallResult Nat := fun _ => .failure .otherFailure

/-- Concrete per-attempt actor: always rate-limited. -/
def invRateLimit : Nat → CallResult Nat := fun _ => .failure .rateLimit

/-- Concrete per-attempt actor: rate-limited once, then success. -/
def invOnceThenOk : Nat → CallResult Nat := fun i =>
  if i == 1 then .failure .rateLimit else .success 0

/-- Concrete per-stage actor: every stage invocation is rate-limited. -/
def invAllRateLimit : Stage → CallResult Nat := fun _ => .failure .rateLimit

/-- Concrete per-stage actor: every stage invocation succeeds with 0. -/
def invAllOk : Stage → CallResult Nat := fun _ => .success 0

/-- Concrete iteration-indexed executor: every command fails. -/
def exC8 : Nat → TaskSpec → Int × List Char := fun _ _ => (1, ("1 failed").toList)

/-- Concrete configuration: only the test task is configured. -/
def cfgC8 : TaskName → Option TaskSpec
  | .test => some ⟨[("pytest").toList], (".").toList⟩
  | _ => none

/-- Concrete empty configuration. -/
def cfgEmpty : TaskName → Option TaskSpec := fun _ => none

/-- Concrete iteration-indexed executor: every command succeeds. -/
def execZero : Nat → TaskSpec → Int × List Char := fun _ _ => (0, [])

/-- Concrete resolved repository root, as a component list. -/
def rootRepo : List (List Char) := [("repo").toList]

/-- Concrete configuration JSON fields: a tasks object holding one valid
entry, one unknown key, and one non-list value. -/
def fieldsC10 : List (List Char × JValue) :=
  [(("tasks").toList,
    .jobj [(("format").toList, .jarr [.jstr ("ruff").toList]),
           (("weird").toList, .jarr []),
           (("lint").toList, .jnum 3)])]

/-- The tasks object inside fieldsC10. -/
def tasksC10 : List (List Char × JValue) :=
  [(("format").toList, .jarr [.jstr ("ruff").toList]),
   (("weird").toList, .jarr []),
   (("lint").toList, .jnum 3)]

/-- Helper: a needle occurs in any text that has it as a contiguous
segment. -/
theorem containsSub_here (n suf : List Char) : containsSub n (n ++ suf) = true := by
  cases h : n ++ suf with
  | nil =>
    have hn : n = [] := by cases n <;> simp_all
    simp [containsSub, hn]
  | cons c t =>
    rw [containsSub]
    have : n.isPrefixOf (c :: t) = true := by
      rw [List.isPrefixOf_iff_prefix, ← h]
      exact List.prefix_append n suf
    simp [this]

/-- Helper: substring occurrence in the middle of a concatenation. -/
theorem containsSub_mid (n pre suf : List Char) :
    containsSub n (pre ++ (n ++ suf)) = true := by
  induction pre with
  | nil => simpa using containsSub_here n suf
  | cons c p ih => simp [containsSub, ih]

/-- C3 counterexample: the claim says the command executor never raises
to its caller, but the _run of tools_repo.py has no try/except, so a
launch failure (here a FileNotFoundError-style OSError) propagates
instead of being converted to an (exitCode, output) pair. -/
theorem claim_C3_counterexample :
    tools_repo_run (.raised (.oserror ("FileNotFoundError: pytest").toList)) =
      .error (.oserror ("FileNotFoundError: pytest").toList) := rfl

/-- C3 (amended): the _run of orchestrator.py never raises: any spawn
exception is converted to exit code 1 with an error message embedding
the exception text, and in particular a timeout is reported as exit 1
with output indicating the timeout; a completed process yields its
return code and combined output.  The _run of tools_repo.py, by
contrast, propagates any spawn exception to its caller. -/
theorem claim_C3_command_executor (argv : List (List Char)) (e : PyExn)
    (cmdRepr : List Char) (secs : Nat) (rc : Int) (so se : List Char) :
    (orchestrator_run argv (.raised e)).1 = 1 ∧
    containsSub (pyExnStr e) (orchestrator_run argv (.raised e)).2 = true ∧
    (orchestrator_run argv (.raised (.timeoutExpired cmdRepr secs))).1 = 1 ∧
    containsSub ((" timed out after ").toList)
      (orchestrator_run argv (.raised (.timeoutExpired cmdRepr secs))).2 = true ∧
    orchestrator_run argv (.completed rc so se) = (rc, combinedOut so se) ∧
    tools_repo_run (.raised e) = .error e := by
  refine ⟨rfl, ?_, rfl, ?_, rfl, rfl⟩
  · have h := containsSub_mid (pyExnStr e)
      ((("ERROR running command ").toList ++ pyArgvRepr argv ++ (": ").toList)) []
    simp only [orchestrator_run]
    simp only [List.append_nil, List.append_assoc] at h ⊢
    exact h
  · have h := containsSub_mid ((" timed out after ").toList)
      ((("ERROR running command ").toList ++ pyArgvRepr argv ++ (": ").toList) ++
        (("Command ").toList ++ cmdRepr))
      (Nat.toDigits 10 secs ++ (" seconds").toList)
    simp only [orchestrator_run, pyExnStr]
    simp only [List.append_assoc] at h ⊢
    exact h

/-- C2 counterexample: the claim says a +++ header carrying an absolute
path is rejected even when it is the very first line of the diff, but
the absolute-path markers of _patch_is_safe all require a preceding
newline (or the diff --git prefix), so this diff is accepted. -/
theorem claim_C2_counterexample :
    patch_is_safe ("+++ /etc/passwd\n+0").toList = true := by decide

/-- C2 (amended): the validator returns accepted=false exactly when the
text contains one of the three absolute-path marker substrings (each of
the +++ and --- markers only matches after a newline, so not on the very
first line, while the diff --git marker matches anywhere, even inside a
non-header line), or some line starting with +++ , --- , or diff --git
contains a parent-traversal token; it returns accepted=true otherwise. -/
theorem claim_C2_patch_validator (t : List Char) :
    patch_is_safe t = false ↔
      (containsSub ('\n' :: ("+++ /").toList) t = true ∨
       containsSub ('\n' :: ("--- /").toList) t = true ∨
       containsSub (("diff --git /").toList) t = true ∨
       ∃ line ∈ pySplitlines t,
         (startsWith (("+++ ").toList) line = true ∨
          startsWith (("--- ").toList) line = true ∨
          startsWith (("diff --git ").toList) line = true) ∧
         (containsSub (("../").toList) line = true ∨
          containsSub (("..\\").toList) line = true)) := by
  simp only [patch_is_safe, bad_markers]
  split
  · rename_i h
    simp only [List.any_cons, List.any_nil, Bool.or_eq_true, Bool.or_false] at h
    constructor
    · intro _; tauto
    · intro _; rfl
  · rename_i h
    simp only [List.any_cons, List.any_nil, Bool.or_eq_true, Bool.or_false] at h
    push_neg at h
    split
    · rename_i h2
      simp only [List.any_eq_true, Bool.and_eq_true, Bool.or_eq_true] at h2
      obtain ⟨line, hmem, hpre, htrav⟩ := h2
      constructor
      · intro _
        refine Or.inr (Or.inr (Or.inr ⟨line, hmem, ?_, htrav⟩))
        tauto
      · intro _; rfl
    · rename_i h2
      simp only [List.any_eq_true, Bool.and_eq_true, Bool.or_eq_true] at h2
      push_neg at h2
      constructor
      · intro hfalse; exact absurd hfalse (by simp)
      · intro hcase
        exfalso
        rcases hcase with hc | hc | hc | hc
        · exact h.1 hc
        · exact h.2.1 hc
        · exact h.2.2 hc
        · obtain ⟨line, hmem, hpre, htrav⟩ := hc
          have hneg := h2 line hmem
          tauto

/-- C2 witness: a diff whose +++ header contains a parent-traversal
token is rejected, instantiating the characterization. -/
theorem claim_C2_witness :
    patch_is_safe ("--- a/x\n+++ b/../y").toList = false :=
  (claim_C2_patch_validator (("--- a/x\n+++ b/../y").toList)).mpr (by decide)

/-- Unfolding: an unconfigured task records skipped and the loop goes on. -/
theorem run_tasks_go_cons_none (ex : TaskSpec → Int × List Char)
    (cfg : TaskName → Option TaskSpec) (t : TaskName) (rest : List TaskName)
    (hc : cfg t = none) :
    run_tasks_go ex cfg (t :: rest) = (t, .skippedTask) :: run_tasks_go ex cfg rest := by
  rw [run_tasks_go, hc]

/-- Unfolding: a configured task that exits zero is recorded and the
loop goes on. -/
theorem run_tasks_go_cons_ok (ex : TaskSpec → Int × List Char)
    (cfg : TaskName → Option TaskSpec) (t : TaskName) (rest : List TaskName)
    (spec : TaskSpec) (hc : cfg t = some spec) (hok : ((ex spec).1 == 0) = true) :
    run_tasks_go ex cfg (t :: rest) =
      (t, ranEntry spec (ex spec)) :: run_tasks_go ex cfg rest := by
  rw [run_tasks_go, hc]
  simp only [hok, if_true]

/-- Unfolding: a configured task with a non-zero exit is recorded and
the loop breaks. -/
theorem run_tasks_go_cons_fail (ex : TaskSpec → Int × List Char)
    (cfg : TaskName → Option TaskSpec) (t : TaskName) (rest : List TaskName)
    (spec : TaskSpec) (hc : cfg t = some spec) (hok : ((ex spec).1 == 0) = false) :
    run_tasks_go ex cfg (t :: rest) = [(t, ranEntry spec (ex spec))] := by
  rw [run_tasks_go, hc]
  simp only [hok, Bool.false_eq_true, if_false]

/-- Helper: the keys recorded by the task loop form a prefix of the
order it was given. -/
theorem run_tasks_go_keys_in_order (ex : TaskSpec → Int × List Char)
    (cfg : TaskName → Option TaskSpec) :
    ∀ order : List TaskName, ((run_tasks_go ex cfg order).map Prod.fst) <+: order := by
  intro order
  induction order with
  | nil => simp [run_tasks_go]
  | cons t rest ih =>
    cases hc : cfg t with
    | none =>
      rw [run_tasks_go_cons_none ex cfg t rest hc]
      simpa [List.cons_prefix_cons] using ih
    | some spec =>
      cases hok : ((ex spec).1 == 0) with
      | true =>
        rw [run_tasks_go_cons_ok ex cfg t rest spec hc hok]
        simpa [List.cons_prefix_cons] using ih
      | false =>
        rw [run_tasks_go_cons_fail ex cfg t rest spec hc hok]
        simp [List.cons_prefix_cons]

/-- Helper: the recorded mapping is either failure-free and covers the
whole order, or it is a failure-free prefix closed by exactly one
failing entry (the loop broke there). -/
theorem run_tasks_go_shape (ex : TaskSpec → Int × List Char)
    (cfg : TaskName → Option TaskSpec) :
    ∀ order : List TaskName,
      ((∀ p ∈ run_tasks_go ex cfg order, entryFailed p.2 = false) ∧
        (run_tasks_go ex cfg order).map Prod.fst = order) ∨
      (∃ pre last, run_tasks_go ex cfg order = pre ++ [last] ∧
        (∀ p ∈ pre, entryFailed p.2 = false) ∧ entryFailed last.2 = true) := by
  intro order
  induction order with
  | nil => left; exact ⟨by simp [run_tasks_go], by simp [run_tasks_go]⟩
  | cons t rest ih =>
    cases hc : cfg t with
    | none =>
      rw [run_tasks_go_cons_none ex cfg t rest hc]
      rcases ih with ⟨hall, hkeys⟩ | ⟨pre, last, heq, hpre, hl⟩
      · left
        refine ⟨?_, by simpa using hkeys⟩
        intro p hp
        rcases List.mem_cons.mp hp with h | h
        · rw [h]; rfl
        · exact hall p h
      · right
        refine ⟨(t, .skippedTask) :: pre, last, ?_, ?_, hl⟩
        · rw [heq, List.cons_append]
        · intro p hp
          rcases List.mem_cons.mp hp with h | h
          · rw [h]; rfl
          · exact hpre p h
    | some spec =>
      cases hok : ((ex spec).1 == 0) with
      | true =>
        rw [run_tasks_go_cons_ok ex cfg t rest spec hc hok]
        have hnotfail : entryFailed (ranEntry spec (ex spec)) = false := by
          simp [ranEntry, entryFailed, hok]
        rcases ih with ⟨hall, hkeys⟩ | ⟨pre, last, heq, hpre, hl⟩
        · left
          refine ⟨?_, by simpa using hkeys⟩
          intro p hp
          rcases List.mem_cons.mp hp with h | h
          · rw [h]; exact hnotfail
          · exact hall p h
        · right
          refine ⟨(t, ranEntry spec (ex spec)) :: pre, last, ?_, ?_, hl⟩
          · rw [heq, List.cons_append]
          · intro p hp
            rcases List.mem_cons.mp hp with h | h
            · rw [h]; exact hnotfail
            · exact hpre p h
      | false =>
        rw [run_tasks_go_cons_fail ex cfg t rest spec hc hok]
        right
        refine ⟨[], (t, ranEntry spec (ex spec)), by simp, by simp, ?_⟩
        simp [ranEntry, entryFailed, hok]

/-- Helper: every recorded entry is faithful to the configuration and
the executor: an unconfigured task is marked skipped, a configured one
carries the outcome of executing its spec. -/
theorem run_tasks_go_entries (ex : TaskSpec → Int × List Char)
    (cfg : TaskName → Option TaskSpec) :
    ∀ order : List TaskName, ∀ t o, (t, o) ∈ run_tasks_go ex cfg order →
      (cfg t = none ∧ o = .skippedTask) ∨
      (∃ spec, cfg t = some spec ∧ o = ranEntry spec (ex spec)) := by
  intro order
  induction order with
  | nil => simp [run_tasks_go]
  | cons u rest ih =>
    intro t o hmem
    cases hc : cfg u with
    | none =>
      rw [run_tasks_go_cons_none ex cfg u rest hc] at hmem
      rcases List.mem_cons.mp hmem with h | h
      · injection h with h1 h2
        left
        exact ⟨h1 ▸ hc, h2⟩
      · exact ih t o h
    | some spec =>
      cases hok : ((ex spec).1 == 0) with
      | true =>
        rw [run_tasks_go_cons_ok ex cfg u rest spec hc hok] at hmem
        rcases List.mem_cons.mp hmem with h | h
        · injection h with h1 h2
          right
          exact ⟨spec, h1 ▸ hc, h2⟩
        · exact ih t o h
      | false =>
        rw [run_tasks_go_cons_fail ex cfg u rest spec hc hok] at hmem
        rcases List.mem_cons.mp hmem with h | h
        · injection h with h1 h2
          right
          exact ⟨spec, h1 ▸ hc, h2⟩
        · simp at h

/-- Helper: the loop result depends on the executor only at the specs of
tasks it actually recorded as executed; an executor agreeing there gives
the identical result, so the commands of tasks beyond the first failure
are never invoked. -/
theorem run_tasks_go_exec_agnostic (ex ex2 : TaskSpec → Int × List Char)
    (cfg : TaskName → Option TaskSpec) :
    ∀ order : List TaskName,
      (∀ t o, (t, o) ∈ run_tasks_go ex cfg order → ∀ spec, cfg t = some spec →
        ex2 spec = ex spec) →
      run_tasks_go ex2 cfg order = run_tasks_go ex cfg order := by
  intro order
  induction order with
  | nil => intro _; rfl
  | cons t rest ih =>
    intro h
    cases hc : cfg t with
    | none =>
      rw [run_tasks_go_cons_none ex cfg t rest hc,
          run_tasks_go_cons_none ex2 cfg t rest hc]
      have hrest := ih (fun u o hmem spec hspec => by
        refine h u o ?_ spec hspec
        rw [run_tasks_go_cons_none ex cfg t rest hc]
        exact List.mem_cons_of_mem _ hmem)
      rw [hrest]
    | some spec =>
      cases hok : ((ex spec).1 == 0) with
      | true =>
        have hhead : (t, ranEntry spec (ex spec)) ∈ run_tasks_go ex cfg (t :: rest) := by
          rw [run_tasks_go_cons_ok ex cfg t rest spec hc hok]
          exact List.mem_cons_self _ _
        have hex : ex2 spec = ex spec := h t (ranEntry spec (ex spec)) hhead spec hc
        have hok2 : ((ex2 spec).1 == 0) = true := by rw [hex]; exact hok
        rw [run_tasks_go_cons_ok ex cfg t rest spec hc hok,
            run_tasks_go_cons_ok ex2 cfg t rest spec hc hok2, hex]
        have hrest := ih (fun u o hmem spec2 hspec2 => by
          refine h u o ?_ spec2 hspec2
          rw [run_tasks_go_cons_ok ex cfg t rest spec hc hok]
          exact List.mem_cons_of_mem _ hmem)
        rw [hrest]
      | false =>
        have hhead : (t, ranEntry spec (ex spec)) ∈ run_tasks_go ex cfg (t :: rest) := by
          rw [run_tasks_go_cons_fail ex cfg t rest spec hc hok]
          exact List.mem_cons_self _ _
        have hex : ex2 spec = ex spec := h t (ranEntry spec (ex spec)) hhead spec hc
        have hok2 : ((ex2 spec).1 == 0) = false := by rw [hex]; exact hok
        rw [run_tasks_go_cons_fail ex cfg t rest spec hc hok,
            run_tasks_go_cons_fail ex2 cfg t rest spec hc hok2, hex]

/-- C4 counterexample: with format and lint both configured and the
format command failing, the returned mapping holds only the format
entry — the claim says every task of the order, including lint and the
not-yet-run ones, gets an entry. -/
theorem claim_C4_counterexample :
    (run_tasks exC4 cfgC4).map Prod.fst = [TaskName.format] ∧
    List.lookup TaskName.lint (run_tasks exC4 cfgC4) = none ∧
    List.lookup TaskName.build (run_tasks exC4 cfgC4) = none := by decide

/-- C4 (amended): the task runner visits tasks in the canonical order
format, lint, typecheck, test, build (the recorded keys are a prefix of
it); an absent task is recorded as skipped and iteration continues; the
result is either failure-free and covers the full order, or it is a
failure-free prefix ending in exactly the first failing task, with no
entries for later tasks; every entry is faithful to the configuration;
and any executor agreeing on the specs of the recorded executed tasks
produces the identical result, so the command of a task after the first
failure is never invoked. -/
theorem claim_C4_task_runner (ex : TaskSpec → Int × List Char)
    (cfg : TaskName → Option TaskSpec) :
    (((run_tasks ex cfg).map Prod.fst) <+: TASK_ORDER) ∧
    (((∀ p ∈ run_tasks ex cfg, entryFailed p.2 = false) ∧
        (run_tasks ex cfg).map Prod.fst = TASK_ORDER) ∨
      (∃ pre last, run_tasks ex cfg = pre ++ [last] ∧
        (∀ p ∈ pre, entryFailed p.2 = false) ∧ entryFailed last.2 = true)) ∧
    (∀ t o, (t, o) ∈ run_tasks ex cfg →
      (cfg t = none ∧ o = .skippedTask) ∨
      (∃ spec, cfg t = some spec ∧ o = ranEntry spec (ex spec))) ∧
    (∀ ex2, (∀ t o, (t, o) ∈ run_tasks ex cfg → ∀ spec, cfg t = some spec →
        ex2 spec = ex spec) →
      run_tasks ex2 cfg = run_tasks ex cfg) :=
  ⟨run_tasks_go_keys_in_order ex cfg TASK_ORDER,
   run_tasks_go_shape ex cfg TASK_ORDER,
   run_tasks_go_entries ex cfg TASK_ORDER,
   fun ex2 h => run_tasks_go_exec_agnostic ex ex2 cfg TASK_ORDER h⟩

/-- C4 witness: the amended statement instantiated at the concrete
failing configuration. -/
theorem claim_C4_witness :
    ((run_tasks exC4 cfgC4).map Prod.fst) <+: TASK_ORDER :=
  (claim_C4_task_runner exC4 cfgC4).1

/-- Helper: if the first k attempts starting at a given attempt number
fail retryably and the next succeeds within the remaining budget, the
attempt loop returns the success together with the k jittered sleeps,
whose base delays double from the starting delay. -/
theorem backoffGo_retry_then_success (invoke : Nat → CallResult α) (jitter : Nat → ℚ)
    (a : α) (k : Nat) :
    ∀ (r attempt : Nat) (delay : ℚ),
      (∀ j, j < k → ∃ f, invoke (attempt + j) = .failure f ∧ retryable f = true) →
      invoke (attempt + k) = .success a → k < r →
      backoffGo invoke jitter r attempt delay =
        (.ok a, (List.range k).map
          (fun j => sleepFor (delay * 2 ^ j) (jitter (attempt + j)))) := by
  induction k with
  | zero =>
    intro r attempt delay _ hsucc hk
    obtain ⟨r2, rfl⟩ : ∃ r2, r = r2 + 1 := ⟨r - 1, by omega⟩
    rw [backoffGo]
    rw [show attempt + 0 = attempt from rfl] at hsucc
    rw [hsucc]
    simp
  | succ k ih =>
    intro r attempt delay hfail hsucc hk
    obtain ⟨r2, rfl⟩ : ∃ r2, r = r2 + 1 := ⟨r - 1, by omega⟩
    obtain ⟨f, hf, hretry⟩ := hfail 0 (Nat.succ_pos k)
    rw [show attempt + 0 = attempt from rfl] at hf
    rw [backoffGo, hf]
    simp only [hretry, if_true]
    have hrest := ih r2 (attempt + 1) (2 * delay)
      (fun j hj => by
        have := hfail (j + 1) (by omega)
        rwa [show attempt + (j + 1) = attempt + 1 + j from by omega] at this)
      (by rwa [show attempt + 1 + k = attempt + (k + 1) from by omega])
      (by omega)
    rw [hrest]
    simp only [Prod.mk.injEq]
    refine ⟨trivial, ?_⟩
    rw [List.range_succ_eq_map, List.map_cons, List.map_map]
    congr 1
    · rw [pow_zero, mul_one, Nat.add_zero]
    · refine List.map_congr_left ?_
      intro j _
      simp only [Function.comp_apply, Nat.succ_eq_add_one]
      congr 1
      · ring
      · congr 1
        omega

/-- Helper: if every attempt of the remaining budget fails retryably,
the loop exhausts the budget, sleeping once per attempt. -/
theorem backoffGo_all_retryable (invoke : Nat → CallResult α) (jitter : Nat → ℚ)
    (k : Nat) :
    ∀ (attempt : Nat) (delay : ℚ),
      (∀ j, j < k → ∃ f, invoke (attempt + j) = .failure f ∧ retryable f = true) →
      backoffGo invoke jitter k attempt delay =
        (.exhausted, (List.range k).map
          (fun j => sleepFor (delay * 2 ^ j) (jitter (attempt + j)))) := by
  induction k with
  | zero => intro attempt delay _; rw [backoffGo]; simp
  | succ k ih =>
    intro attempt delay hfail
    obtain ⟨f, hf, hretry⟩ := hfail 0 (Nat.succ_pos k)
    rw [show attempt + 0 = attempt from rfl] at hf
    rw [backoffGo, hf]
    simp only [hretry, if_true]
    have hrest := ih (attempt + 1) (2 * delay)
      (fun j hj => by
        have := hfail (j + 1) (by omega)
        rwa [show attempt + (j + 1) = attempt + 1 + j from by omega] at this)
    rw [hrest]
    simp only [Prod.mk.injEq]
    refine ⟨trivial, ?_⟩
    rw [List.range_succ_eq_map, List.map_cons, List.map_map]
    congr 1
    · rw [pow_zero, mul_one, Nat.add_zero]
    · refine List.map_congr_left ?_
      intro j _
      simp only [Function.comp_apply, Nat.succ_eq_add_one]
      congr 1
      · ring
      · congr 1
        omega

/-- C5: when the wrapped invocation fails with a retryable
classification exactly k < maxAttempts times and then succeeds, the
wrapper returns the success after exactly k sleeps; the base delays are
0.5 doubling each retry and capped at 20, and each sleep lies in
[delay, 1.25 * delay) under the jitter bound. -/
theorem claim_C5_backoff_success (label : List Char) (invoke : Nat → CallResult α)
    (jitter : Nat → ℚ) (maxAttempts k : Nat) (a : α)
    (hk : k < maxAttempts)
    (hfail : ∀ j, j < k → ∃ f, invoke (1 + j) = .failure f ∧ retryable f = true)
    (hsucc : invoke (1 + k) = .success a)
    (hjit : ∀ i, 0 ≤ jitter i ∧ jitter i < 1) :
    (run_agent_with_backoff label invoke jitter maxAttempts).1 = .ok a ∧
    (run_agent_with_backoff label invoke jitter maxAttempts).2 =
      (List.range k).map (fun j => sleepFor ((1 / 2) * 2 ^ j) (jitter (1 + j))) ∧
    (run_agent_with_backoff label invoke jitter maxAttempts).2.length = k ∧
    (∀ j, j < k →
      min 20 ((1 / 2 : ℚ) * 2 ^ j) ≤ sleepFor ((1 / 2) * 2 ^ j) (jitter (1 + j)) ∧
      sleepFor ((1 / 2) * 2 ^ j) (jitter (1 + j)) <
        (5 / 4) * min 20 ((1 / 2 : ℚ) * 2 ^ j)) := by
  have hgo := backoffGo_retry_then_success invoke jitter a k maxAttempts 1 (1 / 2)
    hfail hsucc hk
  rw [run_agent_with_backoff, hgo]
  refine ⟨rfl, rfl, by simp, ?_⟩
  intro j _
  have hd : (0 : ℚ) < min 20 ((1 / 2) * 2 ^ j) :=
    lt_min (by norm_num) (by positivity)
  obtain ⟨hj0, hj1⟩ := hjit (1 + j)
  constructor
  · rw [sleepFor]
    nlinarith [hd, hj0]
  · rw [sleepFor]
    nlinarith [hd, hj1]

/-- C5 witness: the concrete actor invC5 is rate-limited on attempt 1,
gets a 503 on attempt 2, and succeeds with 42 on attempt 3; with jitter
one half and the default budget of 8 attempts, the wrapper succeeds
after two sleeps with the stated bounds. -/
theorem claim_C5_witness :
    (run_agent_with_backoff ("coder").toList invC5 jitterHalf 8).1 = .ok 42 ∧
    (run_agent_with_backoff ("coder").toList invC5 jitterHalf 8).2 =
      (List.range 2).map (fun j => sleepFor ((1 / 2) * 2 ^ j) (jitterHalf (1 + j))) ∧
    (run_agent_with_backoff ("coder").toList invC5 jitterHalf 8).2.length = 2 ∧
    (∀ j, j < 2 →
      min 20 ((1 / 2 : ℚ) * 2 ^ j) ≤ sleepFor ((1 / 2) * 2 ^ j) (jitterHalf (1 + j)) ∧
      sleepFor ((1 / 2) * 2 ^ j) (jitterHalf (1 + j)) <
        (5 / 4) * min 20 ((1 / 2 : ℚ) * 2 ^ j)) :=
  claim_C5_backoff_success (("coder").toList) invC5 jitterHalf 8 2 42
    (by norm_num)
    (fun j hj => by
      interval_cases j
      · exact ⟨.rateLimit, rfl, rfl⟩
      · exact ⟨.apiError (some 503), rfl, by decide⟩)
    rfl
    (fun i => by constructor <;> norm_num [jitterHalf])

/-- C6 counterexample: an APIError carrying no numeric status code is
neither a rate-limit classification nor classified by a status >= 500,
so the claim requires immediate propagation with zero sleeps; the
wrapper instead retries it like a 5xx, sleeping 8 times and ending in
the terminal RuntimeError. -/
theorem claim_C6_counterexample :
    (run_agent_with_backoff ("map").toList invApiNone jitterZero 8).2.length = 8 ∧
    (run_agent_with_backoff ("map").toList invApiNone jitterZero 8).1 =
      .error (.runtimeError (exhaustedMsg ("map").toList 8)) := by
  constructor
  · rfl
  · rfl

/-- C6 (amended): a failure that is neither a rate-limit nor an
API-error classification is propagated immediately on the first attempt
with zero sleeps, as is an API error carrying a numeric status below
500 (an API error with no numeric status is retried like a 5xx); and
when every attempt of the budget fails retryably the wrapper ends with
the terminal RuntimeError naming the label and the attempt count,
having slept once per attempt. -/
theorem claim_C6_terminal_behavior (label : List Char) (jitter : Nat → ℚ)
    (maxAttempts : Nat) :
    (∀ (α : Type) (invoke : Nat → CallResult α) (f : FailureKind),
      0 < maxAttempts → invoke 1 = .failure f → retryable f = false →
      run_agent_with_backoff label invoke jitter maxAttempts =
        (.error (.propagated f), [])) ∧
    (∀ (α : Type) (invoke : Nat → CallResult α),
      (∀ j, j < maxAttempts → ∃ f, invoke (1 + j) = .failure f ∧ retryable f = true) →
      (run_agent_with_backoff label invoke jitter maxAttempts).1 =
        .error (.runtimeError (exhaustedMsg label maxAttempts)) ∧
      (run_agent_with_backoff label invoke jitter maxAttempts).2.length = maxAttempts) := by
  constructor
  · intro α invoke f hpos h1 hnr
    obtain ⟨m, rfl⟩ : ∃ m, maxAttempts = m + 1 := ⟨maxAttempts - 1, by omega⟩
    rw [run_agent_with_backoff, backoffGo, h1]
    simp only [hnr, Bool.false_eq_true, if_false]
  · intro α invoke hfail
    have hgo := backoffGo_all_retryable invoke jitter maxAttempts 1 (1 / 2) hfail
    rw [run_agent_with_backoff, hgo]
    exact ⟨rfl, by simp⟩

/-- C6 witness: the amended statement instantiated at the default
budget of 8 attempts, with a non-retryable failure propagating with no
sleeps and an always-rate-limited actor exhausting all 8. -/
theorem claim_C6_witness :
    run_agent_with_backoff ("judge").toList invOther jitterHalf 8 =
      (.error (.propagated .otherFailure), []) ∧
    (run_agent_with_backoff ("judge").toList invRateLimit jitterHalf 8).1 =
      .error (.runtimeError (exhaustedMsg ("judge").toList 8)) ∧
    (run_agent_with_backoff ("judge").toList invRateLimit jitterHalf 8).2.length = 8 :=
  ⟨(claim_C6_terminal_behavior (("judge").toList) jitterHalf 8).1 Nat invOther
      .otherFailure (by norm_num) rfl rfl,
   (claim_C6_terminal_behavior (("judge").toList) jitterHalf 8).2 Nat invRateLimit
      (fun j _ => ⟨.rateLimit, rfl, rfl⟩)⟩

/-- C1: the claim says every actor invocation of the pipeline goes
through the resilient retry wrapper.  The source defines
_run_agent_with_backoff but never calls it: every stage is a direct
Runner.run.  Hence a run whose very first map-stage call is rate-limited
propagates the failure immediately, whereas the same actor routed
through the wrapper (rate-limited once, then succeeding) returns the
success — the behavior the claim promises. -/
theorem claim_C1_direct_calls_not_wrapped :
    run_orchestra_model invAllRateLimit execZero cfgEmpty [] 4 = .error .rateLimit ∧
    (run_agent_with_backoff ("repo_map").toList invOnceThenOk jitterZero 8).1 = .ok 0 := by
  constructor
  · rfl
  · rfl

/-- Helper: when every implement, debug and fix invocation succeeds, the
implement loop never errors: it returns some status mapping. -/
theorem orchestraLoopGo_ok (invoke : Stage → CallResult α)
    (execAt : Nat → TaskSpec → Int × List Char) (cfg : TaskName → Option TaskSpec)
    (himpl : ∀ i, ∃ a, invoke (.implementStage i) = .success a)
    (hdebug : ∀ i, ∃ a, invoke (.debugStage i) = .success a)
    (hfix : ∀ i, ∃ a, invoke (.fixStage i) = .success a) :
    ∀ (r i : Nat) (s0 : List (TaskName × TaskOutcome)),
      ∃ st, orchestraLoopGo invoke execAt cfg r i s0 = .ok st := by
  intro r
  induction r with
  | zero => intro i s0; exact ⟨s0, rfl⟩
  | succ r ih =>
    intro i s0
    obtain ⟨ai, hai⟩ := himpl i
    obtain ⟨ad, had⟩ := hdebug i
    obtain ⟨af, haf⟩ := hfix i
    rw [orchestraLoopGo]
    rw [hai]
    cases hff : firstFailing (run_tasks (execAt i) cfg) with
    | none =>
      refine ⟨run_tasks (execAt i) cfg, ?_⟩
      simp only [directCall, hff]
      rfl
    | some w =>
      obtain ⟨st, hst⟩ := ih (i + 1) (run_tasks (execAt i) cfg)
      refine ⟨st, ?_⟩
      simp only [directCall, hff, had, haf, hst]
      rfl

/-- C8: as long as every actor invocation succeeds, the (reassembled)
run_orchestra completes without raising — including when the implement
loop exhausts maxIterations with a still-failing task — and its result
carries the repo map, the plan, the last known status mapping, the
review, the judge decision, and the diff. -/
theorem claim_C8_pipeline_completes (invoke : Stage → CallResult α)
    (execAt : Nat → TaskSpec → Int × List Char) (cfg : TaskName → Option TaskSpec)
    (diffText : List Char) (maxIterations : Nat) (m p rv j : α)
    (hm : invoke .mapStage = .success m) (hp : invoke .planStage = .success p)
    (hrv : invoke .reviewStage = .success rv) (hj : invoke .judgeStage = .success j)
    (himpl : ∀ i, ∃ a, invoke (.implementStage i) = .success a)
    (hdebug : ∀ i, ∃ a, invoke (.debugStage i) = .success a)
    (hfix : ∀ i, ∃ a, invoke (.fixStage i) = .success a) :
    ∃ st, run_orchestra_model invoke execAt cfg diffText maxIterations =
      .ok ⟨m, p, st, rv, j, diffText⟩ := by
  obtain ⟨st, hst⟩ := orchestraLoopGo_ok invoke execAt cfg himpl hdebug hfix
    maxIterations 1 []
  refine ⟨st, ?_⟩
  rw [run_orchestra_model, hm]
  simp only [directCall, hp, hrv, hj, hst]
  rfl

/-- C8 witness: the end-to-end scenario with maxIterations 2 and a test
task failing in both iterations still reaches review and judge and
returns the full result. -/
theorem claim_C8_witness :
    ∃ st, run_orchestra_model invAllOk exC8 cfgC8 [] 2 = .ok ⟨0, 0, st, 0, 0, []⟩ :=
  claim_C8_pipeline_completes invAllOk exC8 cfgC8 [] 2 0 0 0 0 rfl rfl rfl rfl
    (fun _ => ⟨0, rfl⟩) (fun _ => ⟨0, rfl⟩) (fun _ => ⟨0, rfl⟩)

/-- Helper: membership in the parents chain is exactly being a proper
prefix (a strict ancestor) of the path. -/
theorem mem_pathParents_iff (root c : List (List Char)) :
    root ∈ pathParents c ↔ (root <+: c ∧ root ≠ c) := by
  induction c generalizing root with
  | nil =>
    simp only [pathParents, List.not_mem_nil, false_iff, not_and]
    intro hpre
    simpa using List.prefix_nil.mp hpre
  | cons x xs ih =>
    simp only [pathParents, List.mem_cons, List.mem_map]
    constructor
    · rintro (rfl | ⟨p, hp, rfl⟩)
      · exact ⟨⟨x :: xs, by simp⟩, by simp⟩
      · obtain ⟨hpre, hne⟩ := (ih p).mp hp
        refine ⟨List.cons_prefix_cons.mpr ⟨rfl, hpre⟩, ?_⟩
        intro hcontra
        injection hcontra with _ h2
        exact hne h2
    · rintro ⟨hpre, hne⟩
      cases root with
      | nil => left; rfl
      | cons y ys =>
        obtain ⟨rfl, hpre2⟩ := List.cons_prefix_cons.mp hpre
        right
        refine ⟨ys, (ih ys).mpr ⟨hpre2, ?_⟩, rfl⟩
        intro hcontra
        exact hne (by rw [hcontra])

/-- C7: abs_path returns the resolved candidate exactly when that
candidate is the repository root itself or a strict descendant of it,
and raises (errors, before any I/O, the model being I/O-free like the
source guard) exactly otherwise. -/
theorem claim_C7_abs_path_guard (root p : List (List Char)) :
    (abs_path root p = .ok (resolveComps (root ++ p)) ↔
      (resolveComps (root ++ p) = root ∨
        (root <+: resolveComps (root ++ p) ∧ resolveComps (root ++ p) ≠ root))) ∧
    (abs_path root p =
        .error (("Path escapes repo: ").toList ++ List.intercalate ("/").toList p) ↔
      ¬ (resolveComps (root ++ p) = root ∨
        (root <+: resolveComps (root ++ p) ∧ resolveComps (root ++ p) ≠ root))) := by
  rw [abs_path]
  by_cases hcond :
      ¬ (root ∈ pathParents (resolveComps (root ++ p))) ∧ resolveComps (root ++ p) ≠ root
  · rw [if_pos hcond]
    obtain ⟨hnp, hne⟩ := hcond
    rw [mem_pathParents_iff] at hnp
    constructor
    · constructor
      · intro h; cases h
      · intro h
        exfalso
        rcases h with h | ⟨h1, h2⟩
        · exact hne h
        · exact hnp ⟨h1, fun hc => hne hc.symm⟩
    · constructor
      · intro _
        intro h
        rcases h with h | ⟨h1, h2⟩
        · exact hne h
        · exact hnp ⟨h1, fun hc => hne hc.symm⟩
      · intro _; rfl
  · rw [if_neg hcond]
    push_neg at hcond
    constructor
    · constructor
      · intro _
        by_cases heq : resolveComps (root ++ p) = root
        · exact Or.inl heq
        · by_cases hmem : root ∈ pathParents (resolveComps (root ++ p))
          · rw [mem_pathParents_iff] at hmem
            exact Or.inr ⟨hmem.1, heq⟩
          · exact absurd (hcond hmem) heq
      · intro _; rfl
    · constructor
      · intro h; cases h
      · intro h
        exfalso
        apply h
        by_cases heq : resolveComps (root ++ p) = root
        · exact Or.inl heq
        · by_cases hmem : root ∈ pathParents (resolveComps (root ++ p))
          · rw [mem_pathParents_iff] at hmem
            exact Or.inr ⟨hmem.1, heq⟩
          · exact absurd (hcond hmem) heq

/-- C7 witness: from the root repo, the relative path .. resolves to the
parent and is rejected, while the relative path a resolves inside the
root and is returned. -/
theorem claim_C7_witness :
    abs_path rootRepo [("..").toList] =
      .error (("Path escapes repo: ").toList ++
        List.intercalate ("/").toList [("..").toList]) ∧
    abs_path rootRepo [("a").toList] =
      .ok (resolveComps (rootRepo ++ [("a").toList])) :=
  ⟨(claim_C7_abs_path_guard rootRepo [("..").toList]).2.mpr (by decide),
   (claim_C7_abs_path_guard rootRepo [("a").toList]).1.mpr (by decide)⟩

/-- C9 counterexample: the tab character is whitespace, yet a branch
name containing it passes the guard and the git command is invoked
(constructor gitRun), where the claim demands rejection without any
git invocation for every whitespace character. -/
theorem claim_C9_counterexample :
    (Char.ofNat 9) ∈ ("ai/x\ty").toList ∧
    (Char.ofNat 9).isWhitespace = true ∧
    branch_name_invalid ("ai/x\ty").toList = false ∧
    git_create_branch ("ai/x\ty").toList (0, []) =
      .gitRun 0 [] (("OK: on branch ").toList ++ ("ai/x\ty").toList) := by
  refine ⟨by decide, by decide, by decide, ?_⟩
  rw [git_create_branch]
  rw [show branch_name_invalid ("ai/x\ty").toList = false from by decide]
  simp

/-- C9 (amended): the branch-creation guard rejects — returning the
error reply without invoking git — exactly the names containing one of
the literal substrings .., ~, ^, :, a single space, or a backslash;
other whitespace characters such as tab or newline are not caught and
git checkout -b is invoked. -/
theorem claim_C9_branch_guard (name : List Char) (git : Int × List Char) :
    (branch_name_invalid name = true ↔
      (containsSub ("..").toList name = true ∨ containsSub ("~").toList name = true ∨
       containsSub ("^").toList name = true ∨ containsSub (":").toList name = true ∨
       containsSub (" ").toList name = true ∨ containsSub ("\\").toList name = true)) ∧
    (branch_name_invalid name = true →
      git_create_branch name git = .rejected ("ERROR: invalid branch name").toList) ∧
    (branch_name_invalid name = false →
      git_create_branch name git = .gitRun git.1 git.2
        (if git.1 ≠ 0 then ("ERROR: git checkout -b failed").toList ++ ('\n' :: git.2)
         else ("OK: on branch ").toList ++ name)) := by
  refine ⟨?_, ?_, ?_⟩
  · simp [branch_name_invalid, branch_bad_substrings]
  · intro h
    rw [git_create_branch, h]
    simp
  · intro h
    rw [git_create_branch, h]
    simp

/-- C9 witness: a name containing the dotdot substring is rejected
without a git invocation. -/
theorem claim_C9_witness :
    git_create_branch ("a..b").toList (0, []) =
      .rejected ("ERROR: invalid branch name").toList :=
  (claim_C9_branch_guard (("a..b").toList) (0, [])).2.1 (by decide)

/-- Helper: every task collected by the load loop either was already in
the accumulator, or stems from one of the iterated items: its key is in
the closed set, its cwd is the default dot, and its argv is the
list-of-strings reading of that item value. -/
theorem foldl_loadStep_sound (items : List (List Char × JValue)) :
    ∀ acc k spec, (k, spec) ∈ items.foldl loadStep acc →
      (k, spec) ∈ acc ∨
      (k ∈ taskNameStrings ∧ spec.cwd = ('.' :: []) ∧
        ∃ v, (k, v) ∈ items ∧ asStrListArr v = some spec.argv) := by
  induction items with
  | nil => intro acc k spec h; exact Or.inl h
  | cons item rest ih =>
    intro acc k spec h
    rw [List.foldl_cons] at h
    rcases ih (loadStep acc item) k spec h with hacc | ⟨hk, hcwd, v, hv, hread⟩
    · rw [loadStep] at hacc
      by_cases hmem : item.1 ∈ taskNameStrings
      · rw [if_pos hmem] at hacc
        cases hread2 : asStrListArr item.2 with
        | none => rw [hread2] at hacc; exact Or.inl hacc
        | some argv =>
          rw [hread2] at hacc
          rcases List.mem_append.mp hacc with h2 | h2
          · exact Or.inl h2
          · have h3 := List.mem_singleton.mp h2
            injection h3 with h4 h5
            right
            refine ⟨h4 ▸ hmem, by rw [h5], item.2, ?_, ?_⟩
            · rw [h4]; exact List.mem_cons_self _ _
            · rw [h5]; exact hread2
      · rw [if_neg hmem] at hacc
        exact Or.inl hacc
    · exact Or.inr ⟨hk, hcwd, v, List.mem_cons_of_mem _ hv, hread⟩

/-- C10 counterexample: the claim says load handles every JSON
configuration object, silently dropping bad entries; but when the tasks
member is not itself an object (here the number 5), calling .items() on
it raises AttributeError instead of returning a configuration. -/
theorem claim_C10_counterexample :
    OrchestraConfig_load (.jobj [(("tasks").toList, .jnum 5)]) =
      .error .attributeError := rfl

/-- C10 (amended): whenever the tasks member (after Python dict
construction of the object fields) is absent or is itself an object,
load returns a configuration whose every entry has a key in the closed
set install/format/lint/typecheck/test/build, the default working
directory, and an argv obtained from an entry of the tasks object that
is a list of strings — entries with other keys or other value shapes
are silently dropped; but when a tasks member is present and is not an
object, load raises AttributeError. -/
theorem claim_C10_config_load (fields : List (List Char × JValue)) :
    (∀ tf, (strLookup (pyDictOf fields) ("tasks").toList).getD (.jobj []) = .jobj tf →
      ∃ cfg, OrchestraConfig_load (.jobj fields) = .ok cfg ∧
        ∀ k spec, (k, spec) ∈ cfg.tasks →
          k ∈ taskNameStrings ∧ spec.cwd = ('.' :: []) ∧
          ∃ v, (k, v) ∈ pyDictOf tf ∧ asStrListArr v = some spec.argv) ∧
    (∀ v, strLookup (pyDictOf fields) ("tasks").toList = some v →
      (∀ tf2, v ≠ .jobj tf2) →
      OrchestraConfig_load (.jobj fields) = .error .attributeError) := by
  constructor
  · intro tf htf
    refine ⟨⟨(pyDictOf tf).foldl loadStep []⟩, ?_, ?_⟩
    · rw [OrchestraConfig_load, htf]
    · intro k spec hmem
      rcases foldl_loadStep_sound (pyDictOf tf) [] k spec hmem with h | h
      · simp at h
      · exact h
  · intro v hv hnotobj
    rw [OrchestraConfig_load]
    rw [show (strLookup (pyDictOf fields) ("tasks").toList).getD (.jobj []) = v from by
      rw [hv]; rfl]
    cases v with
    | jobj tf2 => exact absurd rfl (hnotobj tf2)
    | jnull => rfl
    | jbool b => rfl
    | jnum n => rfl
    | jstr s => rfl
    | jarr xs => rfl

/-- C10 witness: on the concrete configuration object holding one valid
format entry, one unknown key and one non-list value, load succeeds and
every retained entry is well-formed. -/
theorem claim_C10_witness :
    ∃ cfg, OrchestraConfig_load (.jobj fieldsC10) = .ok cfg ∧
      ∀ k spec, (k, spec) ∈ cfg.tasks →
        k ∈ taskNameStrings ∧ spec.cwd = ('.' :: []) ∧
        ∃ v, (k, v) ∈ pyDictOf tasksC10 ∧ asStrListArr v = some spec.argv :=
  (claim_C10_config_load fieldsC10).1 tasksC10 rfl

end Relialimo
